import Mathlib

/-!
Verification of the Turn-Decision Engine of the ffai example bots
(src/examples/riskbot.py, with the identical fragments of
src/examples/grodbot.py), as a shallow embedding in Lean 4.

Python floats are modelled as rationals, Python ints as integers,
board squares as pairs of naturals, players and teams as natural-number
identifiers.  Game-state queries performed by the embedded functions
(adjacency counts, skill lookups, pathfinding output, the score_move
dispatcher) are supplied as explicit context structures, mirroring the
values the source reads from its game-state collaborator.
-/

namespace FFai

/-- Action types of botbowl used by the embedded code paths
(botbowl.core.table.ActionType members referenced in riskbot.py). -/
inductive ActionType where
  | MOVE
  | BLOCK
  | FOUL
  | HANDOFF
  | PASS
  | STAND_UP
  | START_MOVE
  | START_BLITZ
  | START_BLOCK
  | START_PASS
  | START_HANDOFF
  | START_FOUL
  | END_PLAYER_TURN
  | END_TURN
  | USE_SKILL
deriving DecidableEq

/-- A board square (botbowl.core.model.Square): a pair of coordinates. -/
structure Square where
  x : Nat
  y : Nat
deriving DecidableEq

/-- A primitive action (botbowl.core.model.Action): an action type with an
optional player and an optional position, both defaulting to None. -/
structure MAction where
  action_type : ActionType
  player : Option Nat := none
  position : Option Square := none
deriving DecidableEq

/-- One entry of game.state.available_actions: an action type together with
the lists of eligible players and eligible positions. -/
structure ActionChoice where
  action_type : ActionType
  players : List Nat
  positions : List Square
deriving DecidableEq

/-- Python membership test `x in l` where `x` is an optional player (or
position): `None in l` is False because the list holds only real objects. -/
def pyMem {α : Type} [DecidableEq α] (x : Option α) (l : List α) : Bool :=
  match x with
  | none => false
  | some v => l.contains v

/-- The test `isinstance(action.action_type, type(available_action.action_type))`
from RiskBot.act / GrodBot.act.  Both arguments are members of the same Python
enum class ActionType, and `type(member)` is that class, so the test is True
for every pair of members. -/
def isinstance_action_type (_a _b : ActionType) : Bool :=
  true

/-- The defensive validity re-check of RiskBot.act (riskbot.py lines 154-165;
grodbot.py lines 160-171).  `action_found` starts False and is re-assigned on
every loop iteration whose isinstance test passes; the membership test for a
choice with both players and positions tests `action.player` twice. -/
def action_found_check (action : MAction) (avail : List ActionChoice) : Bool :=
  avail.foldl
    (fun found ac =>
      if isinstance_action_type action.action_type ac.action_type then
        if ac.players ≠ [] ∧ ac.positions ≠ [] then
          pyMem action.player ac.players && pyMem action.player ac.players
        else if ac.players ≠ [] then
          pyMem action.player ac.players
        else if ac.positions ≠ [] then
          pyMem action.position ac.positions
        else
          true
      else found)
    false

/-- The generic catch-all fallback (riskbot.py lines 170-174): take the first
available choice with its first player and first position.  Returns none when
there is no available action at all (the source would raise an IndexError). -/
def catch_all_action (avail : List ActionChoice) : Option MAction :=
  match avail with
  | [] => none
  | ac :: _ => some ⟨ac.action_type, ac.players.head?, ac.positions.head?⟩

/-- The tail of RiskBot.act / GrodBot.act after an action has been produced:
if the re-check reports the action as found it is returned unchanged;
otherwise in debug mode an exception is raised (modelled as none) and in
non-debug mode the catch-all fallback is returned. -/
def act_recheck (debug : Bool) (action : MAction) (avail : List ActionChoice) :
    Option MAction :=
  if action_found_check action avail then some action
  else if debug then none
  else catch_all_action avail

/-- Formalisation of the claim-side notion of a legal action: it is among the
currently offered action choices, i.e. some choice has its action type and,
whenever that choice restricts players or positions, the action's player or
position is among them. -/
def action_legal (action : MAction) (avail : List ActionChoice) : Bool :=
  avail.any (fun ac =>
    decide (ac.action_type = action.action_type) &&
    (if ac.players ≠ [] then pyMem action.player ac.players else true) &&
    (if ac.positions ≠ [] then pyMem action.position ac.positions else true))

/-- Concrete decision point for claim C1: a MOVE choice restricted to square
(3,3) and an unrestricted END_TURN choice. -/
def c1_avail : List ActionChoice :=
  [⟨ActionType.MOVE, [], [⟨3, 3⟩]⟩, ⟨ActionType.END_TURN, [], []⟩]

/-- Concrete produced action for claim C1: a BLOCK at (5,5), which is not
among the offered choices. -/
def c1_action : MAction :=
  ⟨ActionType.BLOCK, none, some ⟨5, 5⟩⟩

/-! Spatial control map: class FfHeatMap (riskbot.py lines 855-918, identical
in grodbot.py lines 704-753).  The two per-side grids, sized to the pitch and
initialised to 0.0, are modelled as total functions from coordinates to
rationals; the callers only index inside the pitch. -/

/-- A candidate path from the pathfinding collaborator
(botbowl.core.pathfinding.Path): an ordered list of squares and a success
probability. -/
structure Path where
  steps : List Square
  prob : ℚ
deriving DecidableEq

/-- Path.get_last_step: the last square of the path (paths produced by the
pathfinder are nonempty; the default square is never read by the callers). -/
def Path.get_last_step (p : Path) : Square :=
  p.steps.getLastD ⟨0, 0⟩

/-- The heat map of FfHeatMap.__init__: the owning team and the two grids
units_friendly and units_opponent, both all zero at construction. -/
structure FfHeatMap where
  team : Nat
  units_friendly : Nat → Nat → ℚ
  units_opponent : Nat → Nat → ℚ

/-- In-place addition `grid[x][y] += v` on a 2-D array, modelled as a
pointwise function update. -/
def bump (g : Nat → Nat → ℚ) (x y : Nat) (v : ℚ) : Nat → Nat → ℚ :=
  fun a b => if a = x ∧ b = y then g a b + v else g a b

/-- FfHeatMap.__init__(game, team): both grids start at 0.0 everywhere. -/
def FfHeatMap.init (team : Nat) : FfHeatMap :=
  ⟨team, fun _ _ => 0, fun _ _ => 0⟩

/-- The path loop of FfHeatMap.add_unit_paths, with the is_friendly flag
(computed once before the loop) made explicit. -/
def add_unit_paths_loop (is_friendly : Bool) (hm : FfHeatMap)
    (paths : List Path) : FfHeatMap :=
  paths.foldl
    (fun h path =>
      let s := path.get_last_step
      if is_friendly then
        { h with units_friendly := bump h.units_friendly s.x s.y (path.prob * path.prob) }
      else
        { h with units_opponent := bump h.units_opponent s.x s.y (path.prob * path.prob) })
    hm

/-- FfHeatMap.add_unit_paths(player, paths): for each path, add
`path.prob * path.prob` to the cell at the path's last step, on the friendly
grid when the player's team is the map's team and on the opponent grid
otherwise. -/
def FfHeatMap.add_unit_paths (hm : FfHeatMap) (playerTeam : Nat)
    (paths : List Path) : FfHeatMap :=
  add_unit_paths_loop (decide (playerTeam = hm.team)) hm paths

/-- One entry of the player-to-paths dictionary fed to
FfHeatMap.add_unit_by_paths: a player's team and that player's paths. -/
structure PathPlayer where
  team : Nat
  paths : List Path

/-- FfHeatMap.add_unit_by_paths(game, paths): fold add_unit_paths over the
dictionary entries. -/
def FfHeatMap.add_unit_by_paths (hm : FfHeatMap) (entries : List PathPlayer) :
    FfHeatMap :=
  entries.foldl (fun h pp => h.add_unit_paths pp.team pp.paths) hm

/-- One already-moved player passed to FfHeatMap.add_players_moved: the
player's position, together with the result of the game query
`game.get_adjacent_squares(player.position, occupied=True)`. -/
structure MovedPlayer where
  position : Square
  occupiedAdjacents : List Square

/-- The inner loop of FfHeatMap.add_players_moved: once per occupied
adjacent square, add 0.5 to the friendly grid at the player's own position
(the source loop body indexes `player.position`, not `adjacent`). -/
def moved_adjacent_loop (px py : Nat) (h1 : FfHeatMap) (adjs : List Square) :
    FfHeatMap :=
  adjs.foldl
    (fun h2 _adj =>
      let half_bump := bump h2.units_friendly px py (1/2)
      { h2 with units_friendly := half_bump })
    h1

/-- The body of the player loop of FfHeatMap.add_players_moved: add 1.0 to
the friendly grid at the player's position, then run the adjacent loop. -/
def moved_player_step (h : FfHeatMap) (pl : MovedPlayer) : FfHeatMap :=
  let h1 := { h with units_friendly := bump h.units_friendly pl.position.x pl.position.y 1 }
  moved_adjacent_loop pl.position.x pl.position.y h1 pl.occupiedAdjacents

/-- FfHeatMap.add_players_moved(game, players) (riskbot.py lines 881-886,
grodbot.py lines 730-735). -/
def FfHeatMap.add_players_moved (hm : FfHeatMap) (players : List MovedPlayer) :
    FfHeatMap :=
  players.foldl moved_player_step hm

/-- FfHeatMap.get_cage_necessity_score(square). -/
def FfHeatMap.get_cage_necessity_score (hm : FfHeatMap) (square : Square) : ℚ :=
  let opponent_heat := hm.units_opponent square.x square.y
  if opponent_heat < 2/5 then (0 : ℚ) - 80
  else 0 + min 3 opponent_heat * 10

/-- The heat-map construction of RiskBot.set_next_move (riskbot.py lines
492-495): start from the fresh map, fold in the opposition paths, then the
own-team paths, then reinforce the already-moved own players. -/
def build_heat_map (team : Nat) (paths_opposition paths_own : List PathPlayer)
    (players_moved : List MovedPlayer) : FfHeatMap :=
  (((FfHeatMap.init team).add_unit_by_paths paths_opposition).add_unit_by_paths
      paths_own).add_players_moved players_moved

/-- The total probability-squared mass contributed by a list of paths to the
cell (a, b): the sum, over the paths whose last step is that cell, of
prob * prob.  Used to state the control-map accumulation properties. -/
def pathContrib (paths : List Path) (a b : Nat) : ℚ :=
  (paths.map (fun p =>
    if a = p.get_last_step.x ∧ b = p.get_last_step.y then p.prob * p.prob else 0)).sum

/-- The total reinforcement contributed by a list of already-moved players to
the cell (a, b): 1 plus half the number of occupied adjacent squares, for
each player standing on that cell.  Used to state the add_players_moved
properties. -/
def movedContrib (players : List MovedPlayer) (a b : Nat) : ℚ :=
  (players.map (fun pl =>
    if a = pl.position.x ∧ b = pl.position.y then
      1 + (pl.occupiedAdjacents.length : ℚ) / 2
    else 0)).sum

/-! Turnover-risk model (riskbot.py lines 2734-2767, 3057-3067). -/

/-- RiskBot.BASE_SCORE_TURNOVER. -/
def BASE_SCORE_TURNOVER : ℚ := -30

/-- RiskBot.BASE_SCORE_TURNOVER_UNMOVED_PLAYER. -/
def BASE_SCORE_TURNOVER_UNMOVED_PLAYER : ℚ := -37

/-- RiskBot.BASE_SCORE_MOVE_TO_BALL. -/
def BASE_SCORE_MOVE_TO_BALL : ℚ := 65

/-- RiskBot.ADDITIONAL_SCORE_NEAR_SIDELINE. -/
def ADDITIONAL_SCORE_NEAR_SIDELINE : ℚ := -20

/-- RiskBot.ADDITIONAL_SCORE_SIDELINE. -/
def ADDITIONAL_SCORE_SIDELINE : ℚ := -40

/-- BotHelper.probability_break_armor(player, modifiers), with
`check = player.get_av() - modifiers` computed on integers. -/
def probability_break_armor (av modifiers : ℤ) : ℚ :=
  let check := av - modifiers
  if 6 ≤ check then
    ((1/2) * (check : ℚ) * (check : ℚ) - (25/2) * (check : ℚ) + 78) / 36
  else
    (-(1/2) * (check : ℚ) * (check : ℚ) + (1/2) * (check : ℚ) + 36) / 36

/-- The attributes of a player and its game context read by
BotHelper.discounted_player_value and BotHelper.fall_down_value:
player.role.cost, player.has_skill(Skill.BLOCK), player.get_av(),
player.team.state.turn and game.state.half. -/
structure PlayerCtx where
  cost : ℚ
  hasBlock : Bool
  av : ℤ
  turn : ℤ
  half : ℤ

/-- BotHelper.discounted_player_value(game, player) (riskbot.py lines
3057-3067): a base value from role cost and the Block skill, scaled by a
quadratic function of the fraction of the game remaining. -/
def discounted_player_value (p : PlayerCtx) : ℚ :=
  let value : ℚ := p.cost / 1000 + (if p.hasBlock then 10 else 0)
  let fraction : ℚ := (25 - (p.turn : ℚ) - 8 * (p.half : ℚ)) / 16
  let quadratic_coef : ℚ := -(39/20) + (191/1000) * (p.av : ℚ)
  let linear_coef : ℚ := 1 - quadratic_coef
  value * (quadratic_coef * fraction * fraction + linear_coef * fraction)

/-- BotHelper.fall_down_value(game, player). -/
def fall_down_value (p : PlayerCtx) : ℚ :=
  probability_break_armor p.av 0 * discounted_player_value p * (15/2)

/-- BotHelper.drop_ball_penalty(game, drop_ball_square, player) (riskbot.py
lines 2752-2756), as a function of the two adjacency counts it queries:
standing players of the player's own team and of the opposing team adjacent
to the drop square. -/
def drop_ball_penalty (my_players their_players : ℕ) : ℚ :=
  min 0 (50 * (((my_players : ℚ) - (their_players : ℚ)) - 2))

/-- The game-and-player-dependent inputs of
BotHelper.turnover_chance_penalty: the value of
BotHelper.fall_down_value(game, player) and the function
`sq ↦ BotHelper.drop_ball_penalty(game, sq, player)`. -/
structure RiskCtx where
  fallDownValue : ℚ
  dropBallPenalty : Square → ℚ

/-- The RiskCtx realised by the source helpers, with the adjacency counts
around each square supplied by the game-state query
`game.get_adjacent_players(sq, team, down=False)` as a function
`adjCounts : Square → own count × opposing count`. -/
def mkRiskCtx (p : PlayerCtx) (adjCounts : Square → ℕ × ℕ) : RiskCtx :=
  ⟨fall_down_value p, fun sq => drop_ball_penalty (adjCounts sq).1 (adjCounts sq).2⟩

/-- BotHelper.turnover_chance_penalty(game, probability, num_unmoved,
fall_down, drop_ball_square, player, variant) (riskbot.py lines 2742-2749).
The `variant` parameter is unused by the source body. -/
def turnover_chance_penalty (ctx : RiskCtx) (probability : ℚ) (num_unmoved : ℤ)
    (fall_down : Bool) (drop_ball_square : Option Square) (_variant : Bool) : ℚ :=
  let score := BASE_SCORE_TURNOVER + (num_unmoved : ℚ) * BASE_SCORE_TURNOVER_UNMOVED_PLAYER
  let score := if fall_down then score - ctx.fallDownValue else score
  let score :=
    match drop_ball_square with
    | some sq => score + ctx.dropBallPenalty sq
    | none => score
  score * probability

/-- BotHelper.path_cost_to_score(game, path, num_unmoved, drop_ball_square,
player, variant). -/
def path_cost_to_score (ctx : RiskCtx) (path : Path) (num_unmoved : ℤ)
    (drop_ball_square : Option Square) (variant : Bool) : ℚ :=
  turnover_chance_penalty ctx (1 - path.prob) num_unmoved true drop_ball_square variant

/-- BotHelper.continuation_path_cost_to_score(game, path, num_unmoved,
drop_ball_square, player, variant). -/
def continuation_path_cost_to_score (ctx : RiskCtx) (path : Path)
    (num_unmoved : ℤ) (drop_ball_square : Option Square) (variant : Bool) : ℚ :=
  path_cost_to_score ctx path num_unmoved drop_ball_square variant * 4

/-- Pass distance categories (botbowl.core.table.PassDistance). -/
inductive PassDistance where
  | QUICK_PASS
  | SHORT_PASS
  | LONG_PASS
  | LONG_BOMB
  | HAIL_MARY
deriving DecidableEq

/-- The passer attributes read by BotHelper.probability_pass_fail:
Nerves of Steel, `game.num_tackle_zones_at(passer, from_square)`, the
Accurate skill, agility, and the Pass skill. -/
structure PassCtx where
  hasNervesOfSteel : Bool
  numTzAt : ℕ
  hasAccurate : Bool
  ag : ℤ
  hasPassSkill : Bool

/-- The source line `passer.has_skill(t.Skill.STRONG_ARM and dist !=
t.PassDistance.QUICK_PASS)` passes the result of the Python `and` — a boolean
(or, when the flag is falsy, an enum member) — to has_skill, and a boolean is
never among a player's skills, so the call always returns False. -/
def has_skill_of_bool_argument : Bool := false

/-- BotHelper.probability_pass_fail(game, passer, from_square, dist)
(riskbot.py lines 2784-2807). -/
def probability_pass_fail (c : PassCtx) (dist : PassDistance) : ℚ :=
  let num_tz : ℚ := if ¬ c.hasNervesOfSteel then (c.numTzAt : ℚ) else 0
  let num_tz := if c.hasAccurate then num_tz - 1 else num_tz
  let num_tz := if has_skill_of_bool_argument then num_tz - 1 else num_tz
  if dist = PassDistance.HAIL_MARY then -100
  else
    let num_tz := if dist = PassDistance.QUICK_PASS then num_tz - 1 else num_tz
    let num_tz := if dist = PassDistance.SHORT_PASS then num_tz - 0 else num_tz
    let num_tz := if dist = PassDistance.LONG_PASS then num_tz + 1 else num_tz
    let num_tz := if dist = PassDistance.LONG_BOMB then num_tz + 2 else num_tz
    let probability_success := min 5 ((c.ag : ℚ) - num_tz) / 6
    let probability_success :=
      if c.hasPassSkill then
        probability_success + (1 - probability_success) * probability_success
      else probability_success
    1 - probability_success

/-! Candidate generation (riskbot.py lines 1384-1717) and the scoring
function score_move_to_ball (riskbot.py lines 2051-2099). -/

/-- Python `max(iterable, default=d)`: d when the iterable is empty,
otherwise the maximum of the elements (d is not a participant). -/
def pyMax (l : List ℚ) (d : ℚ) : ℚ :=
  match l with
  | [] => d
  | x :: xs => xs.foldl max x

/-- The key of the first element of `sorted(l, key, reverse=True)`: the
maximum of the keys.  The source lists are nonempty (the acting player is
among them); on the empty list the source would raise an IndexError. -/
def sorted_head_key (l : List ℚ) : ℚ :=
  pyMax l 0

/-- The player-and-game inputs of BotHelper.score_move_to_ball: ball
position, ball carrier, the acting player's Sure Hands skill, team reroll
state and agility, `game.num_tackle_zones_at(player, ball_square)`, the count
`len(game.get_adjacent_players(ball_square, down=False))`, the blitz and pass
abilities of the unmoved players (with the acting player's own values), and
the distance of the ball square to the sideline. -/
structure MoveToBallCtx where
  ballSquare : Option Square
  ballCarrier : Option Nat
  hasSureHands : Bool
  rerollUsed : Bool
  ag : ℤ
  numTzAtBall : ℕ
  adjacentAtBall : ℕ
  playersBlitzAbility : List ℚ
  playerBlitzAbility : ℚ
  playersPassAbility : List ℚ
  playerPassAbility : ℚ
  distBallToSideline : ℕ

/-- BotHelper.score_move_to_ball(game, heat_map, player, to_square)
(riskbot.py lines 2051-2099): returns (0.0, True) unless the destination is
exactly the ball square and nobody carries the ball; otherwise computes the
pickup attractiveness and returns it with is_complete False. -/
def score_move_to_ball (c : MoveToBallCtx) (hm : FfHeatMap) (to_square : Square) :
    ℚ × Bool :=
  if c.ballSquare ≠ some to_square ∨ c.ballCarrier ≠ none then (0, true)
  else
    let score := BASE_SCORE_MOVE_TO_BALL
    let score :=
      if c.hasSureHands ∨ ¬ c.rerollUsed then score + 15
      else if ¬ c.rerollUsed then score + 10
      else score
    let score := if c.ag < 2 then score + (-10) else score
    let score := if c.ag = 3 then score + 5 else score
    let score := if 3 < c.ag then score + 10 else score
    let score := score + (-10) * (c.numTzAtBall : ℚ)
    let score :=
      if 0 ≤ hm.get_cage_necessity_score to_square ∧ c.adjacentAtBall = 0 then
        score - 15
      else score
    let score := if c.playersBlitzAbility.length = 1 then score + 25 else score
    let score := if c.playersBlitzAbility.length = 2 then score + 15 else score
    let score :=
      if sorted_head_key c.playersBlitzAbility = c.playerBlitzAbility then score + 5
      else score
    let score :=
      if sorted_head_key c.playersPassAbility = c.playerPassAbility then score + 9
      else score
    let score :=
      if c.distBallToSideline = 1 then score - ADDITIONAL_SCORE_NEAR_SIDELINE
      else score
    let score :=
      if c.distBallToSideline = 0 then score - ADDITIONAL_SCORE_SIDELINE
      else score
    (score, false)

/-- The futile-path ("trim futile paths") early exit shared by the candidate
generators: skip the path when the team turn counter differs from 8 and the
turnover cost scaled by the path's failure probability is below the
threshold (riskbot.py lines 513-515, 1506-1508, 1548-1550, 1584-1586,
1673-1675). -/
def futile_path (turn : ℤ) (turnover_cost threshold prob : ℚ) : Bool :=
  decide (turn ≠ 8) && decide (turnover_cost * (1 - prob) < threshold)

/-- The path filter of BotHelper.potential_move_actions (threshold -100). -/
def move_kept_paths (turn : ℤ) (turnover_cost : ℚ) (paths : List Path) :
    List Path :=
  paths.filter (fun p => ! futile_path turn turnover_cost (-100) p.prob)

/-- The path filter of BotHelper.potential_pass_actions (threshold -200). -/
def pass_kept_paths (turn : ℤ) (turnover_cost : ℚ) (paths : List Path) :
    List Path :=
  paths.filter (fun p => ! futile_path turn turnover_cost (-200) p.prob)

/-- The path filter of BotHelper.potential_handoff_actions (threshold -200). -/
def handoff_kept_paths (turn : ℤ) (turnover_cost : ℚ) (paths : List Path) :
    List Path :=
  paths.filter (fun p => ! futile_path turn turnover_cost (-200) p.prob)

/-- The path filter of BotHelper.potential_foul_actions (threshold -100). -/
def foul_kept_paths (turn : ℤ) (turnover_cost : ℚ) (paths : List Path) :
    List Path :=
  paths.filter (fun p => ! futile_path turn turnover_cost (-100) p.prob)

/-- The path filter of the blitz loop in RiskBot.set_next_move (riskbot.py
lines 512-515, threshold -150). -/
def blitz_kept_paths (turn : ℤ) (turnover_cost : ℚ) (paths : List Path) :
    List Path :=
  paths.filter (fun p => ! futile_path turn turnover_cost (-150) p.prob)

/-- An ActionSequence (riskbot.py lines 822-852): the ordered list of action
steps, the owning player, and the immediate and delayed scores.  The debug
description string carried by the source affects no behaviour and is
omitted. -/
structure ActionSeq where
  action_steps : List MAction
  player : Option Nat := none
  immediate_score : ℚ := 0
  delayed_score : ℚ := 0
deriving DecidableEq

/-- The acting-player and game inputs of BotHelper.potential_move_actions:
identity, position and stance of the player, tackle-zone data, the team turn
counter, ball data, the pickup failure probability
`1 - game.get_pickup_prob(player, ball_square, allow_team_reroll=True)`,
sideline distance, and the score_move dispatcher
`(to_square, prob) ↦ BotHelper.score_move(game, heat_map, player, to_square,
prob, current_ball_control, bonus_marks)` projected to its value and
is_complete components. -/
structure MoveCtx where
  playerId : Nat
  playerPos : Square
  playerUp : Bool
  hasTackleZone : Bool
  turn : ℤ
  hasBall : Bool
  ballSquare : Option Square
  ballCarrierNone : Bool
  pickupFailProb : ℚ
  distToSideline : ℕ
  numTzIn : ℕ
  scoreMove : Square → ℚ → ℚ × Bool

/-- The candidate built for one kept path inside the path loop of
BotHelper.potential_move_actions (riskbot.py lines 1677-1715): START_MOVE
unless continuing, STAND_UP when prone, one MOVE per path step other than the
player's own square, END_PLAYER_TURN exactly when the chosen scoring result
is complete; the immediate score is the action score plus the (possibly
continuation-weighted) path risk cost, with the ball-pickup risk re-weighted
when the destination is the loose ball, minus the player's do-nothing score;
the delayed score adds the expected turnover cost of the unmoved players. -/
def mk_move_candidate (c : MoveCtx) (risk : RiskCtx) (num_unmoved : ℤ)
    (do_nothing_score : ℚ) (variant is_continuation : Bool) (path : Path) :
    ActionSeq :=
  let steps0 : List MAction :=
    if ¬ is_continuation then [⟨ActionType.START_MOVE, some c.playerId, none⟩] else []
  let steps1 := steps0 ++ (if ¬ c.playerUp then [⟨ActionType.STAND_UP, none, none⟩] else [])
  let moveSteps : List MAction :=
    (path.steps.filter (fun sq => decide (sq ≠ c.playerPos))).map
      (fun sq => ⟨ActionType.MOVE, none, some sq⟩)
  let to_square := path.get_last_step
  let scored := c.scoreMove to_square path.prob
  let action_score := scored.1
  let is_complete := scored.2
  let steps := steps1 ++ moveSteps ++
    (if is_complete then [⟨ActionType.END_PLAYER_TURN, none, none⟩] else [])
  let drop_square : Option Square := if c.hasBall then some to_square else none
  let path_score :=
    if is_continuation then
      continuation_path_cost_to_score risk path num_unmoved drop_square variant
    else
      path_cost_to_score risk path num_unmoved drop_square variant
  let path_score :=
    if c.ballSquare = some to_square ∧ c.ballCarrierNone then
      path_score
        - turnover_chance_penalty risk c.pickupFailProb num_unmoved true c.ballSquare variant
        + turnover_chance_penalty risk c.pickupFailProb num_unmoved false c.ballSquare variant
    else path_score
  let i_score := action_score + path_score
  let i_score := i_score - do_nothing_score
  let d_score :=
    i_score + (1 - path.prob) * (num_unmoved : ℚ) * (- BASE_SCORE_TURNOVER_UNMOVED_PLAYER)
  ⟨steps, some c.playerId, i_score, d_score⟩

/-- The stand-and-do-nothing candidate of BotHelper.potential_move_actions
(riskbot.py lines 1658-1670), offered when the player has no effective
tackle zone. -/
def stand_up_candidates (c : MoveCtx) : List ActionSeq :=
  if ¬ c.hasTackleZone then
    let scored := c.scoreMove c.playerPos 1
    let score := scored.1
    let score :=
      if c.distToSideline = 0 then (-1 : ℚ)
      else if c.distToSideline = 1 ∧ 0 < c.numTzIn then score - 20
      else score
    [⟨[⟨ActionType.START_MOVE, some c.playerId, none⟩,
       ⟨ActionType.STAND_UP, none, none⟩,
       ⟨ActionType.END_PLAYER_TURN, none, none⟩],
      some c.playerId, score, score⟩]
  else []

/-- BotHelper.potential_move_actions(game, heat_map, player, paths,
num_unmoved, do_nothing_score, variant, is_continuation, current_ball_control,
bonus_marks) (riskbot.py lines 1654-1717): the optional stand-up candidate
followed by one candidate per path that survives the futile-path trim
(threshold -100 against the turnover cost at probability 1). -/
def potential_move_actions (c : MoveCtx) (risk : RiskCtx) (paths : List Path)
    (num_unmoved : ℤ) (do_nothing_score : ℚ) (variant is_continuation : Bool) :
    List ActionSeq :=
  let turnover_cost := turnover_chance_penalty risk 1 num_unmoved true none variant
  stand_up_candidates c ++
    (move_kept_paths c.turn turnover_cost paths).map
      (mk_move_candidate c risk num_unmoved do_nothing_score variant is_continuation)

/-! Sequence selector (riskbot.py lines 578-636, 1384-1402, 3069-3073). -/

/-- BotHelper.is_do_nothing(action) (riskbot.py lines 3069-3073): the
sequence is START_MOVE followed by END_PLAYER_TURN, or a lone START_MOVE. -/
def is_do_nothing (a : ActionSeq) : Bool :=
  match a.action_steps with
  | [s1, s2] =>
      decide (s1.action_type = ActionType.START_MOVE) &&
      decide (s2.action_type = ActionType.END_PLAYER_TURN)
  | [s1] => decide (s1.action_type = ActionType.START_MOVE)
  | _ => false

/-- BotHelper.potential_end_turn_action(game) (riskbot.py lines 1394-1402):
one END_TURN candidate with immediate score 1.0 (the source reads nothing
from its game argument, so the score is the same constant at every decision
cycle); player and delayed score keep their defaults (None and 0). -/
def potential_end_turn_action : List ActionSeq :=
  [⟨[⟨ActionType.END_TURN, none, none⟩], none, 1, 0⟩]

/-- The single end-turn candidate produced by potential_end_turn_action. -/
def endTurnSeq : ActionSeq :=
  ⟨[⟨ActionType.END_TURN, none, none⟩], none, 1, 0⟩

/-- The descending-score order used by `all_actions.sort(key=lambda x:
x.immediate_score, reverse=True)`. -/
def scoreGE (a b : ActionSeq) : Prop :=
  b.immediate_score ≤ a.immediate_score

instance : DecidableRel scoreGE :=
  fun a b => inferInstanceAs (Decidable (b.immediate_score ≤ a.immediate_score))

instance : IsTotal ActionSeq scoreGE :=
  ⟨fun a b => le_total b.immediate_score a.immediate_score⟩

instance : IsTrans ActionSeq scoreGE :=
  ⟨fun _ _ _ h1 h2 => le_trans h2 h1⟩

/-- Python's stable in-place descending sort by immediate score: insertion
sort places each element before the first element whose score is at most its
own, so elements of equal score keep their original order, exactly as
CPython's stable sort with reverse=True does. -/
def sortDesc (l : List ActionSeq) : List ActionSeq :=
  l.insertionSort scoreGE

/-- The body of the fallback selection loop of RiskBot.set_next_move
(riskbot.py lines 625-632), with an explicit fuel bound on the number of
iterations: pop the best-scored candidate; when it is a do-nothing sequence,
discard every candidate of that player and continue; popping from an empty
list would raise an IndexError (modelled as none). -/
def phase2_loop : Nat → List ActionSeq → Option ActionSeq
  | 0, _ => none
  | _ + 1, [] => none
  | fuel + 1, a :: rest =>
      if is_do_nothing a then
        phase2_loop fuel (rest.filter (fun x => decide (x.player ≠ a.player)))
      else some a

/-- The fallback selection loop of RiskBot.set_next_move.  Every iteration
shortens the list, so the initial length bounds the iteration count and the
fuel never runs out before the list is empty. -/
def phase2_select (l : List ActionSeq) : Option ActionSeq :=
  phase2_loop l.length l

/-- The loop state of the opportunity-cost selection of RiskBot.set_next_move
(riskbot.py lines 591-616): the best move so far, the highest net score, and
the accumulated sum of delayed-score improvements.  The variable
highest_i_score of the source feeds only a diagnostic print and is omitted. -/
structure Phase1State where
  best : Option ActionSeq
  highest : ℚ
  sumImp : ℚ

/-- One iteration of the per-player loop of RiskBot.set_next_move (riskbot.py
lines 598-613): skip the player when its best immediate score is below 1.1 or
its best immediate candidate is a do-nothing sequence; otherwise accumulate
the delayed-over-immediate improvement and keep the candidate whose immediate
score net of its own improvement is the strict maximum so far. -/
def phase1_step (allActions : List ActionSeq) (fraction : ℚ) (st : Phase1State)
    (p : Nat) : Phase1State :=
  let acts := allActions.filter (fun x => decide (x.player = some p))
  let max_i := pyMax (acts.map (fun a => a.immediate_score)) 0
  if max_i < 11/10 then st
  else
    match allActions.find? (fun x =>
        decide (x.player = some p) && decide (x.immediate_score = max_i)) with
    | none => st
    | some i_move =>
        if is_do_nothing i_move then st
        else
          let max_d := pyMax (acts.map (fun a => a.delayed_score)) 0
          let improvement := (max_d - max_i) * fraction
          let sumImp := st.sumImp + improvement
          let score := max_i - improvement
          if st.highest < score then ⟨some i_move, score, sumImp⟩
          else ⟨st.best, st.highest, sumImp⟩

/-- The selection performed by RiskBot.set_next_move once all_actions is
built (riskbot.py lines 581-634): run the opportunity-cost pass over the
unmoved players (realization fraction 1.0 unless no player remains), drop its
winner when its net value does not beat the end-turn baseline 1.1 minus the
total improvement, and otherwise fall back to the sorted greedy loop. -/
def set_next_move_select (allActions : List ActionSeq) (players_to_move : List Nat)
    (num_unmoved : ℤ) : Option ActionSeq :=
  let fraction : ℚ := if num_unmoved = 0 then 0 else 1
  let st := players_to_move.foldl (phase1_step allActions fraction) ⟨none, -9999, 0⟩
  let best : Option ActionSeq := if st.highest < 11/10 - st.sumImp then none else st.best
  match best with
  | some b => some b
  | none => phase2_select (sortDesc allActions)

/-- Concrete candidate for claims C3 and C4: a three-step move sequence of
player 0 whose immediate score equals the end-turn constant 1.0, generated
before the end-turn candidate. -/
def moveOneSeq : ActionSeq :=
  ⟨[⟨ActionType.START_MOVE, some 0, none⟩,
    ⟨ActionType.MOVE, none, some ⟨5, 5⟩⟩,
    ⟨ActionType.END_PLAYER_TURN, none, none⟩], some 0, 1, 1⟩

/-- Concrete acting-player context on team turn 8, used by the C6 and C7
witnesses. -/
def c6_ctx : MoveCtx :=
  ⟨0, ⟨0, 0⟩, true, true, 8, false, none, false, 0, 0, 0, fun _ _ => (0, true)⟩

/-- Concrete risk context used by the C6 witness. -/
def c6_risk : RiskCtx :=
  ⟨0, fun _ => 0⟩

/-- Concrete one-step path used by the C6 and C7 witnesses. -/
def c6_path : Path :=
  ⟨[⟨1, 1⟩], 1⟩

/-- Concrete move-to-ball context used by the C7 witness: the ball lies loose
at (2,2). -/
def c7_ctx : MoveToBallCtx :=
  ⟨some ⟨2, 2⟩, none, false, false, 3, 0, 0, [5], 5, [4], 4, 3⟩

/-! THEOREMS. -/

/-- C1 (code_bug): the defensive re-check of RiskBot.act / GrodBot.act does
not detect every illegal action.  At the concrete decision point `c1_avail`
the produced BLOCK action at (5,5) is not among the offered choices, yet the
re-check accepts it and the engine returns it unchanged in non-debug mode:
the isinstance test compares against the enum class so it passes for every
choice, and the found flag is overwritten on each iteration, so only the last
choice (END_TURN, unrestricted, hence True) decides. -/
theorem c1_recheck_accepts_illegal_action :
    act_recheck false c1_action c1_avail = some c1_action ∧
      action_legal c1_action c1_avail = false := by
  decide

/-- C9 (confirmed): BotHelper.drop_ball_penalty is never positive, for every
pair of adjacency counts around the drop square (hence for every game state,
drop square and player). -/
theorem c9_drop_ball_penalty_nonpos (my_players their_players : ℕ) :
    drop_ball_penalty my_players their_players ≤ 0 :=
  min_le_left _ _

/-- Helper: probability_break_armor is non-negative for armour values in the
range 0 to 12 occurring in the game data. -/
theorem probability_break_armor_nonneg (av : ℤ) (h0 : 0 ≤ av) (h12 : av ≤ 12) :
    0 ≤ probability_break_armor av 0 := by
  have h0q : (0 : ℚ) ≤ (av : ℚ) := by exact_mod_cast h0
  have h12q : (av : ℚ) ≤ 12 := by exact_mod_cast h12
  unfold probability_break_armor
  simp only [sub_zero]
  split
  · have h13q : (av : ℚ) ≤ 13 := by linarith
    have hprod : 0 ≤ (12 - (av : ℚ)) * (13 - (av : ℚ)) :=
      mul_nonneg (by linarith) (by linarith)
    nlinarith [hprod]
  · rename_i hlt
    have h5 : av ≤ 5 := by omega
    have h5q : (av : ℚ) ≤ 5 := by exact_mod_cast h5
    have hprod : 0 ≤ (av : ℚ) * (5 - (av : ℚ)) := mul_nonneg h0q (by linarith)
    nlinarith [hprod]

/-- Helper: the time-scaling factor of discounted_player_value is
non-negative when the game fraction lies in the range produced by turns 1..8
of halves 1..2 and the quadratic coefficient in the range produced by armour
values 0..12. -/
theorem time_scaling_factor_nonneg (f q : ℚ) (hf1 : 1/16 ≤ f) (hf2 : f ≤ 1)
    (hq1 : -(39/20) ≤ q) (hq2 : q ≤ 171/500) :
    0 ≤ q * f * f + (1 - q) * f := by
  have hf0 : 0 ≤ f := by linarith
  have h1f : 0 ≤ 1 - f := by linarith
  have hkey : 0 ≤ 1 - q * (1 - f) := by
    rcases le_or_lt q 0 with hq0 | hq0
    · nlinarith [mul_nonneg (neg_nonneg.2 hq0) h1f]
    · nlinarith [mul_le_mul hq2 (by linarith : 1 - f ≤ 15/16) h1f
        (by norm_num : (0 : ℚ) ≤ 171/500)]
  nlinarith [mul_nonneg hf0 hkey]

/-- Helper: discounted_player_value is non-negative for a non-negative role
cost, armour value in 0..12, turn counter in 1..8 and half 1 or 2. -/
theorem discounted_player_value_nonneg (p : PlayerCtx) (hcost : 0 ≤ p.cost)
    (hav0 : 0 ≤ p.av) (hav : p.av ≤ 12) (ht1 : 1 ≤ p.turn) (ht8 : p.turn ≤ 8)
    (hh1 : 1 ≤ p.half) (hh2 : p.half ≤ 2) : 0 ≤ discounted_player_value p := by
  have ht1q : (1 : ℚ) ≤ (p.turn : ℚ) := by exact_mod_cast ht1
  have ht8q : (p.turn : ℚ) ≤ 8 := by exact_mod_cast ht8
  have hh1q : (1 : ℚ) ≤ (p.half : ℚ) := by exact_mod_cast hh1
  have hh2q : (p.half : ℚ) ≤ 2 := by exact_mod_cast hh2
  have hav0q : (0 : ℚ) ≤ (p.av : ℚ) := by exact_mod_cast hav0
  have havq : (p.av : ℚ) ≤ 12 := by exact_mod_cast hav
  unfold discounted_player_value
  apply mul_nonneg
  · have h10 : (0 : ℚ) ≤ (if p.hasBlock then (10 : ℚ) else 0) := by
      split <;> norm_num
    have hcost2 : (0 : ℚ) ≤ p.cost / 1000 := by positivity
    linarith
  · apply time_scaling_factor_nonneg
    · linarith
    · linarith
    · linarith
    · linarith

/-- Helper: fall_down_value is non-negative under the same range
hypotheses. -/
theorem fall_down_value_nonneg (p : PlayerCtx) (hcost : 0 ≤ p.cost)
    (hav0 : 0 ≤ p.av) (hav : p.av ≤ 12) (ht1 : 1 ≤ p.turn) (ht8 : p.turn ≤ 8)
    (hh1 : 1 ≤ p.half) (hh2 : p.half ≤ 2) : 0 ≤ fall_down_value p := by
  unfold fall_down_value
  have h1 := probability_break_armor_nonneg p.av hav0 hav
  have h2 := discounted_player_value_nonneg p hcost hav0 hav ht1 ht8 hh1 hh2
  have h3 : (0 : ℚ) ≤ 15/2 := by norm_num
  exact mul_nonneg (mul_nonneg h1 h2) h3

/-- Helper: the pre-multiplication score of turnover_chance_penalty is at
most -30 whenever the fall-down value of the context is non-negative, its
drop-ball penalties are non-positive, and num_unmoved is non-negative. -/
theorem turnover_score_le (risk : RiskCtx) (num_unmoved : ℤ) (fall_down : Bool)
    (drop_ball_square : Option Square)
    (hfdv : 0 ≤ risk.fallDownValue)
    (hdbp : ∀ sq, risk.dropBallPenalty sq ≤ 0) (hn : 0 ≤ num_unmoved) :
    ((if fall_down then
        BASE_SCORE_TURNOVER + (num_unmoved : ℚ) * BASE_SCORE_TURNOVER_UNMOVED_PLAYER
          - risk.fallDownValue
      else
        BASE_SCORE_TURNOVER + (num_unmoved : ℚ) * BASE_SCORE_TURNOVER_UNMOVED_PLAYER) +
      (match drop_ball_square with
       | some sq => risk.dropBallPenalty sq
       | none => 0)) ≤ -30 := by
  have hnq : (0 : ℚ) ≤ (num_unmoved : ℚ) := by exact_mod_cast hn
  have hbase : BASE_SCORE_TURNOVER + (num_unmoved : ℚ) * BASE_SCORE_TURNOVER_UNMOVED_PLAYER ≤ -30 := by
    unfold BASE_SCORE_TURNOVER BASE_SCORE_TURNOVER_UNMOVED_PLAYER
    nlinarith
  cases fall_down <;> cases drop_ball_square <;>
    simp only [if_true, if_false, Bool.false_eq_true, ite_true, ite_false] <;>
    first
      | linarith
      | (rename_i sq; have := hdbp sq; linarith)

/-- Helper: turnover_chance_penalty as a product of its pre-multiplication
score and the probability. -/
theorem turnover_chance_penalty_eq (risk : RiskCtx) (probability : ℚ)
    (num_unmoved : ℤ) (fall_down : Bool) (drop_ball_square : Option Square)
    (variant : Bool) :
    turnover_chance_penalty risk probability num_unmoved fall_down
        drop_ball_square variant =
      ((if fall_down then
          BASE_SCORE_TURNOVER + (num_unmoved : ℚ) * BASE_SCORE_TURNOVER_UNMOVED_PLAYER
            - risk.fallDownValue
        else
          BASE_SCORE_TURNOVER + (num_unmoved : ℚ) * BASE_SCORE_TURNOVER_UNMOVED_PLAYER) +
        (match drop_ball_square with
         | some sq => risk.dropBallPenalty sq
         | none => 0)) * probability := by
  unfold turnover_chance_penalty
  cases fall_down <;> cases drop_ball_square <;> simp <;> ring

/-- C2 (confirmed): for the turnover-risk model realised from the source
helpers (fall_down_value and drop_ball_penalty), holding the game state — a
player context with non-negative role cost, armour value in 0..12, team turn
in 1..8, half 1 or 2 and arbitrary adjacency counts — the number of unacted
units (non-negative), the fall-down flag and the drop square fixed, the
penalty is monotonically non-increasing as the failure probability increases
over the interval 0..1, and it is exactly 0 at probability 0. -/
theorem c2_turnover_penalty_monotone (p : PlayerCtx) (adjCounts : Square → ℕ × ℕ)
    (num_unmoved : ℤ) (fall_down : Bool) (drop_ball_square : Option Square)
    (variant : Bool) (p1 p2 : ℚ)
    (hcost : 0 ≤ p.cost) (hav0 : 0 ≤ p.av) (hav : p.av ≤ 12)
    (ht1 : 1 ≤ p.turn) (ht8 : p.turn ≤ 8) (hh1 : 1 ≤ p.half) (hh2 : p.half ≤ 2)
    (hn : 0 ≤ num_unmoved) (hp1 : 0 ≤ p1) (hp2 : p2 ≤ 1) (h12 : p1 ≤ p2) :
    turnover_chance_penalty (mkRiskCtx p adjCounts) p2 num_unmoved fall_down
        drop_ball_square variant ≤
      turnover_chance_penalty (mkRiskCtx p adjCounts) p1 num_unmoved fall_down
        drop_ball_square variant ∧
    turnover_chance_penalty (mkRiskCtx p adjCounts) 0 num_unmoved fall_down
        drop_ball_square variant = 0 := by
  have hfdv : 0 ≤ (mkRiskCtx p adjCounts).fallDownValue :=
    fall_down_value_nonneg p hcost hav0 hav ht1 ht8 hh1 hh2
  have hdbp : ∀ sq, (mkRiskCtx p adjCounts).dropBallPenalty sq ≤ 0 := by
    intro sq
    exact min_le_left _ _
  constructor
  · rw [turnover_chance_penalty_eq, turnover_chance_penalty_eq]
    apply mul_le_mul_of_nonpos_left h12
    have := turnover_score_le (mkRiskCtx p adjCounts) num_unmoved fall_down
      drop_ball_square hfdv hdbp hn
    linarith
  · rw [turnover_chance_penalty_eq]
    ring

/-- Witness for C2 at a concrete player context, adjacency counts and
probabilities 1/4 and 1/2. -/
theorem c2_turnover_penalty_monotone_witness :
    turnover_chance_penalty (mkRiskCtx ⟨50, false, 8, 3, 1⟩ (fun _ => (2, 1)))
        (1/2) 2 true (some ⟨5, 5⟩) false ≤
      turnover_chance_penalty (mkRiskCtx ⟨50, false, 8, 3, 1⟩ (fun _ => (2, 1)))
        (1/4) 2 true (some ⟨5, 5⟩) false ∧
    turnover_chance_penalty (mkRiskCtx ⟨50, false, 8, 3, 1⟩ (fun _ => (2, 1)))
        0 2 true (some ⟨5, 5⟩) false = 0 :=
  c2_turnover_penalty_monotone ⟨50, false, 8, 3, 1⟩ (fun _ => (2, 1)) 2 true
    (some ⟨5, 5⟩) false (1/4) (1/2) (by norm_num) (by norm_num) (by norm_num)
    (by norm_num) (by norm_num) (by norm_num) (by norm_num) (by norm_num)
    (by norm_num) (by norm_num) (by norm_num)

/-- C10 (confirmed): probability_pass_fail returns exactly -100 for a Hail
Mary pass, for every passer context, so the result is not confined to the
interval 0..1; and the pass-failure turnover term of score_pass, the penalty
at this probability with fall_down False and the passer's square as drop
square, is then at least +3000 — a large positive adjustment instead of a
risk penalty — whenever the context's drop-ball penalties are non-positive
and num_unmoved is non-negative. -/
theorem c10_hail_mary_pass (c : PassCtx) (risk : RiskCtx) (num_unmoved : ℤ)
    (sq : Square) (variant : Bool)
    (hdbp : ∀ s, risk.dropBallPenalty s ≤ 0) (hn : 0 ≤ num_unmoved) :
    probability_pass_fail c PassDistance.HAIL_MARY = -100 ∧
    3000 ≤ turnover_chance_penalty risk
        (probability_pass_fail c PassDistance.HAIL_MARY) num_unmoved false
        (some sq) variant := by
  have hval : probability_pass_fail c PassDistance.HAIL_MARY = -100 := by
    unfold probability_pass_fail
    simp
  refine ⟨hval, ?_⟩
  rw [hval, turnover_chance_penalty_eq]
  have hnq : (0 : ℚ) ≤ (num_unmoved : ℚ) := by exact_mod_cast hn
  have := hdbp sq
  simp only [if_false, Bool.false_eq_true, ite_false]
  unfold BASE_SCORE_TURNOVER BASE_SCORE_TURNOVER_UNMOVED_PLAYER
  nlinarith

/-- Witness for C10 at a concrete passer and risk context. -/
theorem c10_hail_mary_pass_witness :
    probability_pass_fail ⟨false, 2, false, 3, false⟩ PassDistance.HAIL_MARY = -100 ∧
    3000 ≤ turnover_chance_penalty (mkRiskCtx ⟨50, false, 8, 3, 1⟩ (fun _ => (0, 0)))
        (probability_pass_fail ⟨false, 2, false, 3, false⟩ PassDistance.HAIL_MARY)
        0 false (some ⟨7, 7⟩) false :=
  c10_hail_mary_pass ⟨false, 2, false, 3, false⟩
    (mkRiskCtx ⟨50, false, 8, 3, 1⟩ (fun _ => (0, 0))) 0 ⟨7, 7⟩ false
    (fun _ => min_le_left _ _) (by norm_num)

/-- Helper: cell-level description of add_unit_paths_loop — the team is
unchanged, the grid matching the flag gains exactly the probability-squared
mass of the paths ending at the cell, and the other grid is untouched. -/
theorem add_unit_paths_loop_cells (fl : Bool) :
    ∀ (paths : List Path) (hm : FfHeatMap) (a b : Nat),
      (add_unit_paths_loop fl hm paths).team = hm.team ∧
      (add_unit_paths_loop fl hm paths).units_friendly a b =
        hm.units_friendly a b + (if fl then pathContrib paths a b else 0) ∧
      (add_unit_paths_loop fl hm paths).units_opponent a b =
        hm.units_opponent a b + (if fl then 0 else pathContrib paths a b) := by
  intro paths
  induction paths with
  | nil =>
      intro hm a b
      refine ⟨rfl, ?_, ?_⟩ <;> simp [add_unit_paths_loop, pathContrib]
  | cons p rest ih =>
      intro hm a b
      cases fl with
      | false =>
          have hstep :
              add_unit_paths_loop false hm (p :: rest) =
                add_unit_paths_loop false { hm with units_opponent := bump hm.units_opponent p.get_last_step.x p.get_last_step.y (p.prob * p.prob) } rest := by
            simp [add_unit_paths_loop]
          rw [hstep]
          obtain ⟨iht, ihf, iho⟩ := ih { hm with units_opponent := bump hm.units_opponent p.get_last_step.x p.get_last_step.y (p.prob * p.prob) } a b
          simp only [Bool.false_eq_true, if_false] at ihf iho ⊢
          refine ⟨iht, by rw [ihf], ?_⟩
          rw [iho]
          simp only [bump, pathContrib, List.map_cons, List.sum_cons]
          by_cases hc : a = p.get_last_step.x ∧ b = p.get_last_step.y
          · rw [if_pos hc, if_pos hc]; ring
          · rw [if_neg hc, if_neg hc]; ring
      | true =>
          have hstep :
              add_unit_paths_loop true hm (p :: rest) =
                add_unit_paths_loop true { hm with units_friendly := bump hm.units_friendly p.get_last_step.x p.get_last_step.y (p.prob * p.prob) } rest := by
            simp [add_unit_paths_loop]
          rw [hstep]
          obtain ⟨iht, ihf, iho⟩ := ih { hm with units_friendly := bump hm.units_friendly p.get_last_step.x p.get_last_step.y (p.prob * p.prob) } a b
          simp only [if_true] at ihf iho ⊢
          refine ⟨iht, ?_, by rw [iho]⟩
          rw [ihf]
          simp only [bump, pathContrib, List.map_cons, List.sum_cons]
          by_cases hc : a = p.get_last_step.x ∧ b = p.get_last_step.y
          · rw [if_pos hc, if_pos hc]; ring
          · rw [if_neg hc, if_neg hc]; ring

/-- Helper: cell-level description of add_unit_paths in terms of the team
comparison of the source. -/
theorem add_unit_paths_cells (hm : FfHeatMap) (pteam : Nat) (paths : List Path)
    (a b : Nat) :
    (hm.add_unit_paths pteam paths).team = hm.team ∧
    (hm.add_unit_paths pteam paths).units_friendly a b =
      hm.units_friendly a b + (if pteam = hm.team then pathContrib paths a b else 0) ∧
    (hm.add_unit_paths pteam paths).units_opponent a b =
      hm.units_opponent a b + (if pteam = hm.team then 0 else pathContrib paths a b) := by
  have h := add_unit_paths_loop_cells (decide (pteam = hm.team)) paths hm a b
  unfold FfHeatMap.add_unit_paths
  rcases h with ⟨ht, hf, ho⟩
  refine ⟨ht, ?_, ?_⟩ <;>
    by_cases hc : pteam = hm.team <;>
      simp [hc] at hf ho ⊢ <;> first | rw [hf] | rw [ho]

/-- Helper: pathContrib is non-negative. -/
theorem pathContrib_nonneg (paths : List Path) (a b : Nat) :
    0 ≤ pathContrib paths a b := by
  apply List.sum_nonneg
  intro x hx
  simp only [pathContrib, List.mem_map] at hx
  obtain ⟨p, _, hp⟩ := hx
  subst hp
  split
  · exact mul_self_nonneg _
  · exact le_refl 0

/-- Helper: movedContrib is non-negative. -/
theorem movedContrib_nonneg (players : List MovedPlayer) (a b : Nat) :
    0 ≤ movedContrib players a b := by
  apply List.sum_nonneg
  intro x hx
  simp only [movedContrib, List.mem_map] at hx
  obtain ⟨pl, _, hp⟩ := hx
  subst hp
  split
  · positivity
  · exact le_refl 0

/-- Helper: cell-level description of the inner adjacent loop of
add_players_moved. -/
theorem moved_adjacent_loop_cells (px py : Nat) :
    ∀ (adjs : List Square) (h1 : FfHeatMap) (a b : Nat),
      (moved_adjacent_loop px py h1 adjs).team = h1.team ∧
      (moved_adjacent_loop px py h1 adjs).units_friendly a b =
        h1.units_friendly a b +
          (if a = px ∧ b = py then (adjs.length : ℚ) / 2 else 0) ∧
      (moved_adjacent_loop px py h1 adjs).units_opponent a b =
        h1.units_opponent a b := by
  intro adjs
  induction adjs with
  | nil =>
      intro h1 a b
      refine ⟨rfl, ?_, rfl⟩
      simp [moved_adjacent_loop]
  | cons s rest ih =>
      intro h1 a b
      have hstep :
          moved_adjacent_loop px py h1 (s :: rest) =
            moved_adjacent_loop px py
              { h1 with units_friendly := bump h1.units_friendly px py (1/2) } rest := by
        simp [moved_adjacent_loop]
      rw [hstep]
      obtain ⟨iht, ihf, iho⟩ := ih _ a b
      refine ⟨iht, ?_, iho⟩
      rw [ihf]
      simp only [bump, List.length_cons]
      by_cases hc : a = px ∧ b = py <;> simp [hc] <;> push_cast <;> ring

/-- Helper: cell-level description of add_players_moved. -/
theorem add_players_moved_cells :
    ∀ (players : List MovedPlayer) (hm : FfHeatMap) (a b : Nat),
      (hm.add_players_moved players).team = hm.team ∧
      (hm.add_players_moved players).units_friendly a b =
        hm.units_friendly a b + movedContrib players a b ∧
      (hm.add_players_moved players).units_opponent a b =
        hm.units_opponent a b := by
  intro players
  induction players with
  | nil =>
      intro hm a b
      refine ⟨rfl, ?_, rfl⟩
      simp [FfHeatMap.add_players_moved, movedContrib]
  | cons pl rest ih =>
      intro hm a b
      have hstep :
          hm.add_players_moved (pl :: rest) =
            (moved_player_step hm pl).add_players_moved rest := by
        simp [FfHeatMap.add_players_moved]
      rw [hstep]
      obtain ⟨iht, ihf, iho⟩ := ih (moved_player_step hm pl) a b
      have hin := moved_adjacent_loop_cells pl.position.x pl.position.y
        pl.occupiedAdjacents
        { hm with units_friendly := bump hm.units_friendly pl.position.x pl.position.y 1 }
        a b
      obtain ⟨hint, hinf, hino⟩ := hin
      have hstepf : (moved_player_step hm pl).units_friendly a b =
          hm.units_friendly a b +
            (if a = pl.position.x ∧ b = pl.position.y then
              1 + (pl.occupiedAdjacents.length : ℚ) / 2 else 0) := by
        unfold moved_player_step
        rw [hinf]
        simp only [bump]
        by_cases hc : a = pl.position.x ∧ b = pl.position.y <;> simp [hc] <;> ring
      have hstepo : (moved_player_step hm pl).units_opponent a b =
          hm.units_opponent a b := by
        unfold moved_player_step
        rw [hino]
      have hstept : (moved_player_step hm pl).team = hm.team := by
        unfold moved_player_step
        rw [hint]
      refine ⟨by rw [iht, hstept], ?_, by rw [iho, hstepo]⟩
      rw [ihf, hstepf]
      simp only [movedContrib, List.map_cons, List.sum_cons]
      ring

/-- C5 counterexample: the claim says each occupied neighboring cell receives
a partial increment, but on the fresh map with one moved player at (3,3)
whose only occupied neighbor is (3,4), the neighbor cell stays at 0 while the
player's own cell receives the full 1.5. -/
theorem c5_neighbor_not_incremented :
    ((FfHeatMap.init 0).add_players_moved [⟨⟨3, 3⟩, [⟨3, 4⟩]⟩]).units_friendly 3 4 = 0 ∧
    ((FfHeatMap.init 0).add_players_moved [⟨⟨3, 3⟩, [⟨3, 4⟩]⟩]).units_friendly 3 3 = 3/2 := by
  constructor <;>
    norm_num [FfHeatMap.add_players_moved, moved_player_step, moved_adjacent_loop,
      FfHeatMap.init, bump]

/-- C5 (corrected): add_players_moved increments each moved unit's own
occupied cell by a flat 1.0 plus a further 0.5 for each occupied neighboring
cell, accumulated on the unit's own cell; every other cell, including the
occupied neighbors, and the whole opponent grid are unchanged. -/
theorem c5_players_moved_increments (hm : FfHeatMap) (players : List MovedPlayer)
    (a b : Nat) :
    (hm.add_players_moved players).units_friendly a b =
      hm.units_friendly a b + movedContrib players a b ∧
    (hm.add_players_moved players).units_opponent a b =
      hm.units_opponent a b := by
  obtain ⟨-, hf, ho⟩ := add_players_moved_cells players hm a b
  exact ⟨hf, ho⟩

/-- Helper: add_unit_by_paths preserves the team and weakly increases every
cell of both grids. -/
theorem add_unit_by_paths_mono :
    ∀ (entries : List PathPlayer) (hm : FfHeatMap) (a b : Nat),
      (hm.add_unit_by_paths entries).team = hm.team ∧
      hm.units_friendly a b ≤ (hm.add_unit_by_paths entries).units_friendly a b ∧
      hm.units_opponent a b ≤ (hm.add_unit_by_paths entries).units_opponent a b := by
  intro entries
  induction entries with
  | nil =>
      intro hm a b
      exact ⟨rfl, le_refl _, le_refl _⟩
  | cons e rest ih =>
      intro hm a b
      have hstep : hm.add_unit_by_paths (e :: rest) =
          (hm.add_unit_paths e.team e.paths).add_unit_by_paths rest := by
        simp [FfHeatMap.add_unit_by_paths]
      rw [hstep]
      obtain ⟨iht, ihf, iho⟩ := ih (hm.add_unit_paths e.team e.paths) a b
      obtain ⟨ht, hf, ho⟩ := add_unit_paths_cells hm e.team e.paths a b
      have hpc := pathContrib_nonneg e.paths a b
      refine ⟨by rw [iht, ht], ?_, ?_⟩
      · refine le_trans ?_ ihf
        rw [hf]
        split <;> linarith
      · refine le_trans ?_ iho
        rw [ho]
        split <;> linarith

/-- C8 (confirmed): every cell of the control map built by set_next_move is
non-negative; folding in an additional unit's paths only weakly increases
cell values; a single path adds exactly its probability squared to the cell
at its last step, on the friendly grid when the unit belongs to the map's
team and on the opponent grid otherwise, leaving the other grid unchanged;
and folding in two units' path sets in either order yields identical cell
values. -/
theorem c8_control_map_accumulation :
    (∀ (team : Nat) (opp own : List PathPlayer) (moved : List MovedPlayer) (x y : Nat),
       0 ≤ (build_heat_map team opp own moved).units_friendly x y ∧
       0 ≤ (build_heat_map team opp own moved).units_opponent x y) ∧
    (∀ (hm : FfHeatMap) (pteam : Nat) (paths : List Path) (x y : Nat),
       hm.units_friendly x y ≤ (hm.add_unit_paths pteam paths).units_friendly x y ∧
       hm.units_opponent x y ≤ (hm.add_unit_paths pteam paths).units_opponent x y) ∧
    (∀ (hm : FfHeatMap) (pteam : Nat) (path : Path),
       (hm.add_unit_paths pteam [path]).units_friendly path.get_last_step.x
           path.get_last_step.y =
         hm.units_friendly path.get_last_step.x path.get_last_step.y +
           (if pteam = hm.team then path.prob * path.prob else 0) ∧
       (hm.add_unit_paths pteam [path]).units_opponent path.get_last_step.x
           path.get_last_step.y =
         hm.units_opponent path.get_last_step.x path.get_last_step.y +
           (if pteam = hm.team then 0 else path.prob * path.prob)) ∧
    (∀ (hm : FfHeatMap) (e1 e2 : PathPlayer) (x y : Nat),
       (hm.add_unit_by_paths [e1, e2]).units_friendly x y =
         (hm.add_unit_by_paths [e2, e1]).units_friendly x y ∧
       (hm.add_unit_by_paths [e1, e2]).units_opponent x y =
         (hm.add_unit_by_paths [e2, e1]).units_opponent x y) := by
  have hby : ∀ (hm : FfHeatMap) (e : PathPlayer) (a b : Nat),
      (hm.add_unit_by_paths [e]).team = hm.team ∧
      (hm.add_unit_by_paths [e]).units_friendly a b =
        hm.units_friendly a b + (if e.team = hm.team then pathContrib e.paths a b else 0) ∧
      (hm.add_unit_by_paths [e]).units_opponent a b =
        hm.units_opponent a b + (if e.team = hm.team then 0 else pathContrib e.paths a b) := by
    intro hm e a b
    have h := add_unit_paths_cells hm e.team e.paths a b
    simpa [FfHeatMap.add_unit_by_paths] using h
  have hby2 : ∀ (hm : FfHeatMap) (e1 e2 : PathPlayer),
      hm.add_unit_by_paths [e1, e2] = (hm.add_unit_by_paths [e1]).add_unit_by_paths [e2] := by
    intro hm e1 e2
    simp [FfHeatMap.add_unit_by_paths]
  refine ⟨?_, ?_, ?_, ?_⟩
  · intro team opp own moved x y
    unfold build_heat_map
    set hm1 := (FfHeatMap.init team).add_unit_by_paths opp with hhm1
    set hm2 := hm1.add_unit_by_paths own with hhm2
    obtain ⟨-, hf1, ho1⟩ := add_unit_by_paths_mono opp (FfHeatMap.init team) x y
    obtain ⟨-, hf2, ho2⟩ := add_unit_by_paths_mono own hm1 x y
    obtain ⟨-, hf3, ho3⟩ := add_players_moved_cells moved hm2 x y
    have hmc := movedContrib_nonneg moved x y
    have hzf : (FfHeatMap.init team).units_friendly x y = 0 := rfl
    have hzo : (FfHeatMap.init team).units_opponent x y = 0 := rfl
    constructor
    · rw [hf3]
      rw [hzf] at hf1
      linarith
    · rw [ho3]
      rw [hzo] at ho1
      linarith
  · intro hm pteam paths x y
    obtain ⟨-, hf, ho⟩ := add_unit_paths_cells hm pteam paths x y
    constructor
    · rw [hf]
      have := pathContrib_nonneg paths x y
      split <;> linarith
    · rw [ho]
      have := pathContrib_nonneg paths x y
      split <;> linarith
  · intro hm pteam path
    obtain ⟨-, hf, ho⟩ := add_unit_paths_cells hm pteam [path]
      path.get_last_step.x path.get_last_step.y
    rw [hf, ho]
    constructor <;> congr 1 <;>
      simp [pathContrib]
  · intro hm e1 e2 x y
    obtain ⟨ht1, hf1, ho1⟩ := hby hm e1 x y
    obtain ⟨ht2, hf2, ho2⟩ := hby hm e2 x y
    obtain ⟨ht12, hf12, ho12⟩ := hby (hm.add_unit_by_paths [e1]) e2 x y
    obtain ⟨ht21, hf21, ho21⟩ := hby (hm.add_unit_by_paths [e2]) e1 x y
    rw [hby2 hm e1 e2, hby2 hm e2 e1]
    constructor
    · rw [hf12, hf21, hf1, hf2, ht1, ht2]
      ring
    · rw [ho12, ho21, ho1, ho2, ht1, ht2]
      ring

/-- Helper: one phase-1 step preserves the invariant that any recorded best
move is not a do-nothing sequence and has immediate score at least 1.1. -/
theorem phase1_step_best (A : List ActionSeq) (f : ℚ) (st : Phase1State) (p : Nat)
    (h : ∀ b, st.best = some b →
      is_do_nothing b = false ∧ 11/10 ≤ b.immediate_score) :
    ∀ b, (phase1_step A f st p).best = some b →
      is_do_nothing b = false ∧ 11/10 ≤ b.immediate_score := by
  intro b hb
  simp only [phase1_step] at hb
  split at hb
  · exact h b hb
  · rename_i hmax
    split at hb
    · exact h b hb
    · rename_i i_move hfind
      split at hb
      · exact h b hb
      · rename_i hdn
        split at hb
        · simp only [Phase1State.mk.injEq] at hb
          have hb2 : i_move = b := Option.some.inj hb
          subst hb2
          have hpred := List.find?_some hfind
          simp only [Bool.and_eq_true, decide_eq_true_eq] at hpred
          refine ⟨Bool.not_eq_true _ |>.mp hdn, ?_⟩
          rw [hpred.2]
          exact not_lt.1 hmax
        · exact h b hb

/-- Helper: the phase-1 fold preserves the best-move invariant. -/
theorem phase1_foldl_best (A : List ActionSeq) (f : ℚ) :
    ∀ (P : List Nat) (st : Phase1State),
      (∀ b, st.best = some b →
        is_do_nothing b = false ∧ 11/10 ≤ b.immediate_score) →
      ∀ b, (P.foldl (phase1_step A f) st).best = some b →
        is_do_nothing b = false ∧ 11/10 ≤ b.immediate_score := by
  intro P
  induction P with
  | nil => intro st h b hb; exact h b hb
  | cons p rest ih =>
      intro st h b hb
      exact ih (phase1_step A f st p) (phase1_step_best A f st p h) b hb

/-- Helper: the phase-2 loop never returns a do-nothing sequence. -/
theorem phase2_loop_not_do_nothing :
    ∀ (fuel : Nat) (l : List ActionSeq) (b : ActionSeq),
      phase2_loop fuel l = some b → is_do_nothing b = false := by
  intro fuel
  induction fuel with
  | zero => intro l b hb; simp [phase2_loop] at hb
  | succ fuel ih =>
      intro l b hb
      cases l with
      | nil => simp [phase2_loop] at hb
      | cons a rest =>
          by_cases ha : is_do_nothing a
          · rw [phase2_loop, if_pos ha] at hb
            exact ih _ b hb
          · rw [phase2_loop, if_neg ha] at hb
            have : a = b := Option.some.inj hb
            subst this
            exact Bool.not_eq_true _ |>.mp ha

/-- Helper: on a descending-sorted list that contains a non-do-nothing
candidate with no owning player (the end-turn candidate), and in which every
do-nothing candidate has an owning player, the phase-2 loop returns a
candidate scoring at least as well as that candidate. -/
theorem phase2_loop_score (e : ActionSeq) (he1 : is_do_nothing e = false)
    (he2 : e.player = none) :
    ∀ (fuel : Nat) (l : List ActionSeq), l.length ≤ fuel →
      l.Pairwise scoreGE → e ∈ l →
      (∀ x ∈ l, is_do_nothing x = true → x.player ≠ none) →
      ∃ b, phase2_loop fuel l = some b ∧
        e.immediate_score ≤ b.immediate_score := by
  intro fuel
  induction fuel with
  | zero =>
      intro l hlen hpw hmem hall
      rw [List.length_eq_zero.1 (Nat.le_zero.1 hlen)] at hmem
      exact absurd hmem (List.not_mem_nil e)
  | succ fuel ih =>
      intro l hlen hpw hmem hall
      cases l with
      | nil => exact absurd hmem (List.not_mem_nil e)
      | cons a rest =>
          by_cases ha : is_do_nothing a
          · have hap : a.player ≠ none := hall a (List.mem_cons_self a rest) ha
            have hea : e ≠ a := by
              intro hcontra
              rw [hcontra, ha] at he1
              exact Bool.true_eq_false.mp he1
            have her : e ∈ rest := (List.mem_cons.1 hmem).resolve_left hea
            have hef : e ∈ rest.filter (fun x => decide (x.player ≠ a.player)) := by
              refine List.mem_filter.2 ⟨her, ?_⟩
              rw [decide_eq_true_eq, he2]
              exact fun hcontra => hap hcontra.symm
            have hsub : List.Sublist (rest.filter (fun x => decide (x.player ≠ a.player))) rest :=
              List.filter_sublist _
            have hlen2 : (rest.filter (fun x => decide (x.player ≠ a.player))).length ≤ fuel := by
              have h1 := hsub.length_le
              have h2 : rest.length ≤ fuel := Nat.le_of_succ_le_succ hlen
              omega
            have hpw2 : (rest.filter (fun x => decide (x.player ≠ a.player))).Pairwise scoreGE :=
              ((List.pairwise_cons.1 hpw).2).sublist hsub
            have hall2 : ∀ x ∈ rest.filter (fun x => decide (x.player ≠ a.player)),
                is_do_nothing x = true → x.player ≠ none := by
              intro x hx
              exact hall x (List.mem_cons_of_mem a (List.mem_filter.1 hx).1)
            obtain ⟨b, hb, hscore⟩ := ih _ hlen2 hpw2 hef hall2
            refine ⟨b, ?_, hscore⟩
            rw [phase2_loop, if_pos ha]
            exact hb
          · refine ⟨a, by rw [phase2_loop, if_neg ha], ?_⟩
            rcases List.mem_cons.1 hmem with hcase | hcase
            · rw [hcase]
            · exact (List.pairwise_cons.1 hpw).1 e hcase

/-- Helper: the sorted list is pairwise descending. -/
theorem sortDesc_pairwise (l : List ActionSeq) : (sortDesc l).Pairwise scoreGE :=
  List.sorted_insertionSort scoreGE l

/-- Helper: sorting preserves membership. -/
theorem sortDesc_mem (a : ActionSeq) (l : List ActionSeq) :
    a ∈ sortDesc l ↔ a ∈ l :=
  (List.perm_insertionSort scoreGE l).mem_iff

/-- Helper: the selector result comes either from the phase-1 fold or from
the phase-2 loop on the sorted list. -/
theorem set_next_move_select_cases (A : List ActionSeq) (P : List Nat)
    (n : ℤ) (b : ActionSeq) (h : set_next_move_select A P n = some b) :
    (P.foldl (phase1_step A (if n = 0 then (0 : ℚ) else 1))
        ⟨none, -9999, 0⟩).best = some b ∨
      phase2_select (sortDesc A) = some b := by
  simp only [set_next_move_select] at h
  by_cases hcut : (P.foldl (phase1_step A (if n = 0 then (0 : ℚ) else 1))
      ⟨none, -9999, 0⟩).highest <
        11/10 - (P.foldl (phase1_step A (if n = 0 then (0 : ℚ) else 1))
      ⟨none, -9999, 0⟩).sumImp
  · rw [if_pos hcut] at h
    right
    exact h
  · rw [if_neg hcut] at h
    cases hbest : (P.foldl (phase1_step A (if n = 0 then (0 : ℚ) else 1))
        ⟨none, -9999, 0⟩).best with
    | none =>
        rw [hbest] at h
        right
        exact h
    | some b2 =>
        rw [hbest] at h
        have hbb : b2 = b := Option.some.inj h
        subst hbb
        left
        rfl

/-- Helper: whatever set_next_move_select returns is not a do-nothing
sequence: the phase-1 pass filters do-nothing best moves out explicitly and
the phase-2 loop skips and removes them. -/
theorem set_next_move_select_not_do_nothing (A : List ActionSeq) (P : List Nat)
    (n : ℤ) (b : ActionSeq) (h : set_next_move_select A P n = some b) :
    is_do_nothing b = false := by
  rcases set_next_move_select_cases A P n b h with hc | hc
  · exact (phase1_foldl_best A _ P ⟨none, -9999, 0⟩
      (by intro x hx; simp at hx) b hc).1
  · exact phase2_loop_not_do_nothing _ _ b hc

/-- Helper: concrete evaluation of the selector on the two-candidate list
made of the player-0 move sequence scoring exactly 1.0 and the end-turn
candidate: phase 1 skips player 0 (its best immediate score 1.0 is below
1.1), and the stable descending sort keeps the move sequence, generated
first, ahead of the equally-scored end-turn candidate, so the phase-2 loop
pops and returns it. -/
theorem select_concrete_eval :
    set_next_move_select [moveOneSeq, endTurnSeq] [0] 3 = some moveOneSeq := by
  have h1 : phase1_step [moveOneSeq, endTurnSeq] 1 ⟨none, -9999, 0⟩ 0 =
      ⟨none, -9999, 0⟩ := by
    simp only [phase1_step, moveOneSeq, endTurnSeq]
    rw [if_pos]
    simp only [List.filter_cons, List.filter_nil]
    rw [if_pos (by simp), if_neg (by simp)]
    norm_num [pyMax]
  have h2 : sortDesc [moveOneSeq, endTurnSeq] = [moveOneSeq, endTurnSeq] := by
    unfold sortDesc
    rw [List.insertionSort, List.insertionSort, List.insertionSort,
      List.orderedInsert, List.orderedInsert]
    rw [if_pos]
    unfold scoreGE
    norm_num [moveOneSeq, endTurnSeq]
  simp only [set_next_move_select]
  norm_num
  simp only [List.foldl_cons, List.foldl_nil, h1]
  rw [if_pos (by norm_num)]
  simp only [phase2_select, h2]
  rfl

/-- C3 counterexample: the claim says a candidate scoring at or below the
end-turn constant 1.0 is never selected in preference to ending the turn,
but with the end-turn candidate present, the selector picks the move
sequence of player 0 whose immediate score is exactly 1.0. -/
theorem c3_tie_selected_over_end_turn :
    set_next_move_select [moveOneSeq, endTurnSeq] [0] 3 = some moveOneSeq ∧
    moveOneSeq.immediate_score ≤ endTurnSeq.immediate_score ∧
    moveOneSeq ≠ endTurnSeq ∧ endTurnSeq ∈ [moveOneSeq, endTurnSeq] := by
  refine ⟨select_concrete_eval, le_refl _, ?_, List.mem_cons_of_mem _ (List.mem_cons_self _ _)⟩
  intro h
  exact absurd (congrArg ActionSeq.player h) (by simp [moveOneSeq, endTurnSeq])

/-- C3 (corrected): the end-turn candidate produced by
potential_end_turn_action always carries the fixed constant immediate score
1.0, and whenever that candidate is among the generated actions (and, as the
generator guarantees, every do-nothing candidate has an owning player), any
sequence the selector returns scores at least 1.0 — so no candidate scoring
strictly below the end-turn constant is ever selected in preference to
ending the turn.  (A candidate scoring exactly 1.0 can still be preferred,
see the counterexample, which is why the original "at or below" fails.) -/
theorem c3_end_turn_baseline :
    (∀ a ∈ potential_end_turn_action, a.immediate_score = 1) ∧
    (∀ (A : List ActionSeq) (P : List Nat) (n : ℤ) (b : ActionSeq),
       endTurnSeq ∈ A →
       (∀ x ∈ A, is_do_nothing x = true → x.player ≠ none) →
       set_next_move_select A P n = some b →
       1 ≤ b.immediate_score) := by
  constructor
  · intro a ha
    simp only [potential_end_turn_action, List.mem_singleton] at ha
    rw [ha]
  · intro A P n b hend hall hsel
    rcases set_next_move_select_cases A P n b hsel with hc | hc
    · have := (phase1_foldl_best A _ P ⟨none, -9999, 0⟩
        (by intro x hx; simp at hx) b hc).2
      linarith
    · have hmem : endTurnSeq ∈ sortDesc A := (sortDesc_mem _ _).2 hend
      have hall2 : ∀ x ∈ sortDesc A, is_do_nothing x = true → x.player ≠ none := by
        intro x hx
        exact hall x ((sortDesc_mem _ _).1 hx)
      obtain ⟨b0, hb0, hscore⟩ := phase2_loop_score endTurnSeq rfl rfl
        (sortDesc A).length (sortDesc A) (le_refl _) (sortDesc_pairwise A)
        hmem hall2
      unfold phase2_select at hc
      rw [hb0] at hc
      have hbb : b0 = b := Option.some.inj hc
      subst hbb
      exact hscore

/-- Witness for C3: on the singleton list holding only the end-turn
candidate, the selector returns it and its score is at least 1. -/
theorem c3_end_turn_baseline_witness :
    1 ≤ endTurnSeq.immediate_score :=
  c3_end_turn_baseline.2 [endTurnSeq] [] 0 endTurnSeq (List.mem_cons_self _ _)
    (by
      intro x hx hdn
      simp only [List.mem_singleton] at hx
      subst hx
      simp [is_do_nothing, endTurnSeq] at hdn)
    (by
      simp only [set_next_move_select]
      rw [if_pos (by norm_num)]
      rw [show sortDesc [endTurnSeq] = [endTurnSeq] by
        unfold sortDesc
        rw [List.insertionSort, List.insertionSort, List.orderedInsert]]
      rfl)

/-- C4 (confirmed): whenever a unit has at least one non-do-nothing candidate
among the generated actions, the sequence selected by set_next_move is never
a do-nothing sequence of that unit (indeed the selector never returns a
do-nothing sequence at all). -/
theorem c4_no_do_nothing_selected (A : List ActionSeq) (P : List Nat) (n : ℤ)
    (p : Nat) (b : ActionSeq)
    (hex : ∃ x ∈ A, x.player = some p ∧ is_do_nothing x = false)
    (hsel : set_next_move_select A P n = some b) :
    ¬ (b.player = some p ∧ is_do_nothing b = true) := by
  rintro ⟨-, hdn⟩
  rw [set_next_move_select_not_do_nothing A P n b hsel] at hdn
  exact Bool.false_ne_true hdn

/-- Witness for C4: with the concrete candidate list containing the move
sequence of player 0 and the end-turn candidate, the selector picks the move
sequence, which is not a do-nothing sequence. -/
theorem c4_no_do_nothing_selected_witness :
    ¬ (moveOneSeq.player = some 0 ∧ is_do_nothing moveOneSeq = true) :=
  c4_no_do_nothing_selected [moveOneSeq, endTurnSeq] [0] 3 0 moveOneSeq
    ⟨moveOneSeq, List.mem_cons_self _ _, rfl, rfl⟩
    select_concrete_eval

/-- Helper: at team turn 8 the futile-path test always fails, so every
kept-path filter keeps the whole list. -/
theorem futile_path_at_turn_8 (tc th pr : ℚ) : futile_path 8 tc th pr = false := by
  simp [futile_path]

/-- C6 (confirmed): the futile-path trim discards a path exactly when the
team turn counter differs from 8 and the turnover cost scaled by the path's
failure probability is below the category threshold; at turn 8 nothing is
discarded in any category (move, pass, hand-off, foul, blitz), and away from
turn 8 each category keeps exactly the paths at or above its fixed threshold
(-100 for move and foul, -200 for pass and hand-off, -150 for blitz). -/
theorem c6_futile_path_pruning :
    (∀ (turn : ℤ) (tc th pr : ℚ),
       futile_path turn tc th pr = true ↔ (turn ≠ 8 ∧ tc * (1 - pr) < th)) ∧
    (∀ (c : MoveCtx) (risk : RiskCtx) (paths : List Path) (num_unmoved : ℤ)
       (dns : ℚ) (variant is_continuation : Bool), c.turn = 8 →
       potential_move_actions c risk paths num_unmoved dns variant is_continuation =
         stand_up_candidates c ++
           paths.map (mk_move_candidate c risk num_unmoved dns variant is_continuation)) ∧
    (∀ (turn : ℤ) (tc : ℚ) (paths : List Path), turn = 8 →
       move_kept_paths turn tc paths = paths ∧
       pass_kept_paths turn tc paths = paths ∧
       handoff_kept_paths turn tc paths = paths ∧
       foul_kept_paths turn tc paths = paths ∧
       blitz_kept_paths turn tc paths = paths) ∧
    (∀ (turn : ℤ) (tc : ℚ) (p : Path) (paths : List Path), turn ≠ 8 →
       (p ∈ move_kept_paths turn tc paths ↔ p ∈ paths ∧ ¬ tc * (1 - p.prob) < -100) ∧
       (p ∈ pass_kept_paths turn tc paths ↔ p ∈ paths ∧ ¬ tc * (1 - p.prob) < -200) ∧
       (p ∈ handoff_kept_paths turn tc paths ↔ p ∈ paths ∧ ¬ tc * (1 - p.prob) < -200) ∧
       (p ∈ foul_kept_paths turn tc paths ↔ p ∈ paths ∧ ¬ tc * (1 - p.prob) < -100) ∧
       (p ∈ blitz_kept_paths turn tc paths ↔ p ∈ paths ∧ ¬ tc * (1 - p.prob) < -150)) := by
  have hiff : ∀ (turn : ℤ) (tc th pr : ℚ),
      futile_path turn tc th pr = true ↔ (turn ≠ 8 ∧ tc * (1 - pr) < th) := by
    intro turn tc th pr
    simp [futile_path]
  have hkeep : ∀ (tc th : ℚ) (paths : List Path),
      paths.filter (fun p => ! futile_path 8 tc th p.prob) = paths := by
    intro tc th paths
    apply List.filter_eq_self.2
    intro p _
    rw [futile_path_at_turn_8]
    rfl
  have hmem : ∀ (turn : ℤ) (tc th : ℚ) (p : Path) (paths : List Path), turn ≠ 8 →
      (p ∈ paths.filter (fun p => ! futile_path turn tc th p.prob) ↔
        p ∈ paths ∧ ¬ tc * (1 - p.prob) < th) := by
    intro turn tc th p paths hturn
    rw [List.mem_filter]
    simp [futile_path, hturn]
  refine ⟨hiff, ?_, ?_, ?_⟩
  · intro c risk paths n dns v cont h8
    simp only [potential_move_actions, move_kept_paths, h8]
    rw [hkeep]
  · intro turn tc paths h8
    subst h8
    exact ⟨hkeep tc _ paths, hkeep tc _ paths, hkeep tc _ paths,
      hkeep tc _ paths, hkeep tc _ paths⟩
  · intro turn tc p paths hturn
    exact ⟨hmem turn tc _ p paths hturn, hmem turn tc _ p paths hturn,
      hmem turn tc _ p paths hturn, hmem turn tc _ p paths hturn,
      hmem turn tc _ p paths hturn⟩

/-- Witness for C6: at the concrete turn-8 context nothing is pruned, and at
turn 7 with turnover cost -300 the single kept path satisfies the threshold
characterisation. -/
theorem c6_futile_path_pruning_witness :
    potential_move_actions c6_ctx c6_risk [c6_path] 0 0 false false =
      stand_up_candidates c6_ctx ++
        [c6_path].map (mk_move_candidate c6_ctx c6_risk 0 0 false false) ∧
    (c6_path ∈ pass_kept_paths 7 (-300) [c6_path] ↔
      c6_path ∈ [c6_path] ∧ ¬ (-300 : ℚ) * (1 - c6_path.prob) < -200) :=
  ⟨c6_futile_path_pruning.2.1 c6_ctx c6_risk [c6_path] 0 0 false false rfl,
   (c6_futile_path_pruning.2.2.2 7 (-300) c6_path [c6_path] (by norm_num)).2.1⟩

/-- C7 (confirmed): score_move_to_ball returns the pair (0, True) whenever
the destination is not exactly the ball square or someone holds the ball;
when its precondition holds it reports is_complete False; and the move
candidate generator appends the END_PLAYER_TURN step to a path candidate
exactly when the chosen scoring result reports is_complete True. -/
theorem c7_move_to_ball_completeness :
    (∀ (c : MoveToBallCtx) (hm : FfHeatMap) (to_square : Square),
       c.ballSquare ≠ some to_square ∨ c.ballCarrier ≠ none →
       score_move_to_ball c hm to_square = (0, true)) ∧
    (∀ (c : MoveToBallCtx) (hm : FfHeatMap) (to_square : Square),
       c.ballSquare = some to_square → c.ballCarrier = none →
       (score_move_to_ball c hm to_square).2 = false) ∧
    (∀ (c : MoveCtx) (risk : RiskCtx) (num_unmoved : ℤ) (dns : ℚ)
       (variant is_continuation : Bool) (path : Path),
       (⟨ActionType.END_PLAYER_TURN, none, none⟩ : MAction) ∈
           (mk_move_candidate c risk num_unmoved dns variant
             is_continuation path).action_steps ↔
         (c.scoreMove path.get_last_step path.prob).2 = true) := by
  refine ⟨?_, ?_, ?_⟩
  · intro c hm to_square h
    unfold score_move_to_ball
    rw [if_pos h]
  · intro c hm to_square h1 h2
    unfold score_move_to_ball
    rw [if_neg (by push_neg; exact ⟨h1, h2⟩)]
  · intro c risk n dns v cont path
    cases hsc : (c.scoreMove path.get_last_step path.prob).2 with
    | false =>
        simp only [mk_move_candidate, hsc, Bool.false_eq_true, if_false,
          List.append_nil, Bool.false_eq_true, iff_false]
        intro hmem
        rcases List.mem_append.1 hmem with hmem2 | hmem2
        · rcases List.mem_append.1 hmem2 with hmem3 | hmem3
          · by_cases hcont : cont <;> simp [hcont] at hmem3
          · by_cases hup : c.playerUp <;> simp [hup] at hmem3
        · obtain ⟨sq, -, habs⟩ := List.mem_map.1 hmem2
          exact absurd (congrArg MAction.action_type habs) (by simp)
    | true =>
        simp only [mk_move_candidate, hsc, if_true, iff_true]
        refine List.mem_append.2 (Or.inr ?_)
        simp

/-- Witness for C7: at the concrete context with the ball loose at (2,2),
moving onto (2,2) reports is_complete False, moving to (9,9) scores (0, True),
and the concrete generated candidate carries an END_PLAYER_TURN step since
its scoring oracle reports complete. -/
theorem c7_move_to_ball_completeness_witness :
    (score_move_to_ball c7_ctx (FfHeatMap.init 0) ⟨2, 2⟩).2 = false ∧
    score_move_to_ball c7_ctx (FfHeatMap.init 0) ⟨9, 9⟩ = (0, true) ∧
    ((⟨ActionType.END_PLAYER_TURN, none, none⟩ : MAction) ∈
        (mk_move_candidate c6_ctx c6_risk 0 0 false false c6_path).action_steps ↔
      (c6_ctx.scoreMove c6_path.get_last_step c6_path.prob).2 = true) :=
  ⟨c7_move_to_ball_completeness.2.1 c7_ctx (FfHeatMap.init 0) ⟨2, 2⟩ rfl rfl,
   c7_move_to_ball_completeness.1 c7_ctx (FfHeatMap.init 0) ⟨9, 9⟩
     (Or.inl (by simp [c7_ctx])),
   c7_move_to_ball_completeness.2.2 c6_ctx c6_risk 0 0 false false c6_path⟩

end FFai
